import Mathlib

/-!
Shallow embedding of the endline tension meter firmware
(load_cell_logger_feather_4_4.cpp) and proofs about its
settings store, calibration commands, sampling loop, status
indicator, session-file selection and serial input handling.

Machine `int`/`long` values are modelled as `Int` and machine `float`
values as `Rat` (the quantities involved in the claims are exactly
representable; where IEEE division by zero matters it is modelled
explicitly by the `FVal` type below).  Arduino `Print` renders a
`float` with two decimal digits after adding a rounding constant of
0.005, and terminates `println` lines with CR LF; both are modelled
exactly.
-/

namespace EndlineTension

/-! ### Kernel-computable rational arithmetic

The Batteries implementations of `Rat.add`, `Rat.mul`, `Rat.sub` and
`Rat.inv` are marked irreducible, which prevents concrete evaluation
inside `decide` proofs.  The following wrappers compute the same
values through `mkRat` (which does reduce); the `_eq` lemmas below
identify them with the ordinary field operations, so abstract proofs
can use the standard algebra lemmas. -/

def qAdd (a b : Rat) : Rat := mkRat (a.num * b.den + b.num * a.den) (a.den * b.den)

def qSub (a b : Rat) : Rat := mkRat (a.num * b.den - b.num * a.den) (a.den * b.den)

def qMul (a b : Rat) : Rat := mkRat (a.num * b.num) (a.den * b.den)

def qDiv (a b : Rat) : Rat :=
  if b.num < 0 then mkRat (-(a.num * b.den)) (a.den * b.num.natAbs)
  else mkRat (a.num * b.den) (a.den * b.num.natAbs)

/-! ### Compile-time constants (macros of the source) -/

def DEFAULT_ECHO : Bool := true

def DEFAULT_LOG_INTERVAL : Int := 1000

def DEFAULT_SYNC_INTERVAL : Int := 10000

def DEFAULT_CAL_FACTOR : Rat := 0

def DEFAULT_ZERO_OFFSET : Rat := 1000

def DEFAULT_TRIP_VALUE : Int := 1700

def SERIAL_SIZE : Nat := 15

def LOW_BATTERY_VOLTAGE : Rat := mkRat 7 2

/-! ### Decimal rendering, modelling Arduino Print output -/

/-- The ASCII character of a decimal digit. -/
def digitChar (d : Nat) : Char := Char.ofNat (48 + d)

/-- Digit expansion with explicit fuel (the fuel only serves
termination; `natCharsAux n n` always has enough).  Produces the
decimal digits of a positive number, most significant first. -/
def natCharsAux : Nat → Nat → List Char
  | 0, _ => []
  | _ + 1, 0 => []
  | fuel + 1, n + 1 => natCharsAux fuel ((n + 1) / 10) ++ [digitChar ((n + 1) % 10)]

/-- Decimal digits of a natural number, most significant first,
as printed by Arduino Print for an unsigned value. -/
def natChars (n : Nat) : List Char :=
  if n = 0 then [digitChar 0] else natCharsAux n n

/-- Rendering of an integer as printed by Print.print(int). -/
def intChars (n : Int) : List Char :=
  if n < 0 then '-' :: natChars n.natAbs else natChars n.natAbs

/-- Rendering of a float as printed by Print.print(double) with the
default two decimal places: a rounding constant 0.005 is added, the
integer part is printed, then two fractional digits. -/
def floatChars (q : Rat) : List Char :=
  let a : Rat := if q < 0 then -q else q
  let n : Nat := ((qMul (qAdd a (mkRat 1 200)) 100).floor).toNat
  (if q < 0 then ['-'] else []) ++
    natChars (n / 100) ++ '.' :: digitChar (n / 10 % 10) :: [digitChar (n % 10)]

/-- Rendering of a bool as printed by Print.print (integral promotion). -/
def boolChars (b : Bool) : List Char := if b then [digitChar 1] else [digitChar 0]

/-! ### The C standard library pieces used by parseSavedVar -/

/-- Accumulating digit parse: the digit-consuming loop of atoi.
Consumes leading decimal digits, returning the accumulated value. -/
def digitsVal : List Char → Nat → Nat
  | [], acc => acc
  | ch :: rest, acc =>
    if ch.isDigit then digitsVal rest (acc * 10 + (ch.toNat - 48)) else acc

/-- C `atoi`: skip whitespace, optional sign, then leading digits;
parsing stops at the first non-digit (in particular at a decimal
point, which is what truncates fractional settings values). -/
def atoi (s : List Char) : Int :=
  let t := s.dropWhile (fun ch => ch.isWhitespace)
  if t.head? = some '-' then -(digitsVal (t.drop 1) 0 : Int)
  else if t.head? = some '+' then (digitsVal (t.drop 1) 0 : Int)
  else (digitsVal t 0 : Int)

/-- Delimiter set of the first strtok call in parseSavedVar: " =". -/
def delimEq (ch : Char) : Bool := ch = ' ' || ch = '='

/-- Delimiter set of the later strtok calls in parseSavedVar: " ". -/
def delimSp (ch : Char) : Bool := ch = ' '

/-- One C `strtok` step: skip leading delimiters; if nothing is left
return NULL (none); otherwise return the token up to the next
delimiter and the remainder after that delimiter. -/
def strtok1 (delims : Char → Bool) (s : List Char) : Option (List Char × List Char) :=
  let t := s.dropWhile delims
  if t.isEmpty then none
  else some (t.takeWhile (fun ch => !delims ch), (t.dropWhile (fun ch => !delims ch)).drop 1)

/-! ### The settings record (globals read/written to config.txt) -/

/-- The six globals persisted in config.txt.  `echo` is a C bool,
the intervals and trip value C ints, and `cal_factor`/`zero_offset`
C floats. -/
structure Cfg where
  echo : Bool
  log_interval : Int
  sync_interval : Int
  cal_factor : Rat
  zero_offset : Rat
  trip_value : Int
deriving DecidableEq, Repr

/-- Global state at reset, before readSystemSettings runs
(C statics zero-initialised). -/
def cfgBoot : Cfg := ⟨false, 0, 0, 0, 0, 0⟩

def kEcho : List Char := ['e', 'c', 'h', 'o']

def kLog : List Char := ['l', 'o', 'g', '_', 'i', 'n', 't', 'e', 'r', 'v', 'a', 'l']

def kSync : List Char := ['s', 'y', 'n', 'c', '_', 'i', 'n', 't', 'e', 'r', 'v', 'a', 'l']

def kCal : List Char := ['c', 'a', 'l', '_', 'f', 'a', 'c', 't', 'o', 'r']

def kZero : List Char := ['z', 'e', 'r', 'o', '_', 'o', 'f', 'f', 's', 'e', 't']

def kTrip : List Char := ['t', 'r', 'i', 'p', '_', 'v', 'a', 'l', 'u', 'e']

/-- The assignment chain of parseSavedVar: four independent `if`s for
echo, log_interval, sync_interval and cal_factor, then the
`if trip_value ... else if zero_offset` pair, exactly as in the
source. -/
def applyKV (name : List Char) (val : Int) (c : Cfg) : Cfg :=
  let c1 := if name = kEcho then { c with echo := val != 0 } else c
  let c2 := if name = kLog then { c1 with log_interval := val } else c1
  let c3 := if name = kSync then { c2 with sync_interval := val } else c2
  let c4 := if name = kCal then { c3 with cal_factor := (val : Rat) } else c3
  if name = kTrip then { c4 with trip_value := val }
  else if name = kZero then { c4 with zero_offset := (val : Rat) } else c4

/-- parseSavedVar: tokenize one config line with strtok(" =") then
twice strtok(" "), convert the value with atoi, and run the
assignment chain.  A line without three tokens is skipped. -/
def parseSavedVar (c : Cfg) (buff : List Char) : Cfg :=
  match strtok1 delimEq buff with
  | none => c
  | some (name, rest1) =>
    match strtok1 delimSp rest1 with
    | none => c
    | some (_, rest2) =>
      match strtok1 delimSp rest2 with
      | none => c
      | some (valu, _) => applyKV name (atoi valu) c

/-- The character loop of readSystemSettings: accumulate a line
buffer, and on CR or LF hand the buffer to parseSavedVar and reset
it.  A trailing unterminated buffer is never parsed. -/
def readChars : List Char → List Char → Cfg → Cfg
  | [], _, c => c
  | ch :: rest, buf, c =>
    if ch = '\n' ∨ ch = '\r' then readChars rest [] (parseSavedVar c buf)
    else readChars rest (buf ++ [ch]) c

/-- The default-calibration test at the end of readSystemSettings:
settingsDetected is cleared when cal_factor equals the default OR
zero_offset equals the default. -/
def settingsDetectedOf (c : Cfg) : Bool :=
  !(decide (c.cal_factor = DEFAULT_CAL_FACTOR) || decide (c.zero_offset = DEFAULT_ZERO_OFFSET))

/-- readSystemSettings on an existing config file with the given
content: parse every terminated line into the globals `c0`, then
compute settingsDetected. -/
def readSystemSettings (content : List Char) (c0 : Cfg) : Cfg × Bool :=
  let c := readChars content [] c0
  (c, settingsDetectedOf c)

/-- One `key = value` line as written by
`configFile.print("key = "); configFile.println(value)`;
println terminates with CR LF. -/
def kvLine (key val : List Char) : List Char :=
  key ++ ' ' :: '=' :: ' ' :: (val ++ ['\r', '\n'])

/-- saveSystemSettings: the full content of the rewritten config.txt,
six `key = value` lines in source order. -/
def saveSystemSettings (c : Cfg) : List Char :=
  kvLine kEcho (boolChars c.echo) ++
  kvLine kLog (intChars c.log_interval) ++
  kvLine kSync (intChars c.sync_interval) ++
  kvLine kCal (floatChars c.cal_factor) ++
  kvLine kZero (floatChars c.zero_offset) ++
  kvLine kTrip (intChars c.trip_value)

/-! ### IEEE float special values

The sampling loop divides by the calibration factor with no guard;
when the stored calibration factor is the uncalibrated sentinel 0 the
C float division produces an infinity or NaN.  `FVal` models a float
as either a finite rational or one of those special values, exactly
enough for division by zero and the comparisons the loop performs
(any comparison against NaN is false). -/

inductive FVal where
  | num (q : Rat)
  | inf
  | ninf
  | nan
deriving DecidableEq, Repr

/-- Float division x / d: finite quotient when d is nonzero,
otherwise NaN for 0/0 and a signed infinity for x/0. -/
def fdiv (x d : Rat) : FVal :=
  if d = 0 then (if x = 0 then FVal.nan else if 0 < x then FVal.inf else FVal.ninf)
  else FVal.num (qDiv x d)

/-- The float comparison a > b (false whenever either side is NaN). -/
def FVal.fgt : FVal → FVal → Bool
  | FVal.nan, _ => false
  | _, FVal.nan => false
  | FVal.inf, FVal.inf => false
  | FVal.inf, _ => true
  | FVal.ninf, _ => false
  | FVal.num _, FVal.inf => false
  | FVal.num _, FVal.ninf => true
  | FVal.num a, FVal.num b => decide (b < a)

/-- Float division of a possibly non-finite value by a finite one
(used for max_load / trip_value). -/
def FVal.divQ : FVal → Rat → FVal
  | FVal.nan, _ => FVal.nan
  | FVal.inf, t => if t < 0 then FVal.ninf else FVal.inf
  | FVal.ninf, t => if t < 0 then FVal.inf else FVal.ninf
  | FVal.num q, t => fdiv q t

/-- The float comparison a > c against a finite constant
(used for the 1.0 / 0.75 / 0.5 trip thresholds). -/
def FVal.gtQ : FVal → Rat → Bool
  | FVal.nan, _ => false
  | FVal.inf, _ => true
  | FVal.ninf, _ => false
  | FVal.num q, c => decide (c < q)

/-! ### The RGB status LED -/

/-- An RGB triple as passed to setRGB (common anode: pull down
lights the LED). -/
structure Color where
  r : Int
  g : Int
  b : Int
deriving DecidableEq, Repr

def blue : Color := ⟨255, 255, 0⟩

def green : Color := ⟨255, 0, 255⟩

def red : Color := ⟨0, 255, 255⟩

def magenta : Color := ⟨0, 255, 0⟩

def yellow : Color := ⟨10, 10, 255⟩

def orange : Color := ⟨0, 108, 255⟩

def all_off : Color := ⟨255, 255, 255⟩

/-! ### The sampling loop (the non-command part of loop()) -/

/-- The state the sampling part of loop() reads and writes: the
library calibration (set from the settings store at boot and only
changed by calibration commands), the running maximum, the saved
rgb_state array, the colour currently displayed by the LED, the
trip value and the last battery measurement. -/
structure LoopSt where
  nau_zero : Int
  nau_cal : Rat
  max_load : FVal
  rgb_state : Color
  shown : Color
  trip_value : Int
  measuredvbat : Rat
deriving DecidableEq, Repr

/-- The per-iteration inputs of one pass of loop(): whether the load
cell has a sample ready, the raw reading used for the log line, the
averaged reading used inside getWeight, whether the sync interval
has elapsed, and the battery voltage read during sync. -/
structure TickIn where
  avail : Bool
  reading : Int
  avgReading : Int
  syncDue : Bool
  vbat : Rat
deriving DecidableEq, Repr

/-- The load-cell fields of the CSV record written by one iteration
(the millis/time columns carry no logic and are omitted). -/
structure Row where
  raw : Int
  load : FVal
deriving DecidableEq, Repr

/-- The SparkFun NAU7802 library getWeight with its default
allowNegativeWeights = false: readings below the zero offset are
clamped to it, then the offset-corrected average is divided by the
calibration factor with no zero-divisor guard. -/
def getWeight (zero : Int) (cal : Rat) (avg : Int) : FVal :=
  let onScale : Int := if avg < zero then zero else avg
  fdiv ((onScale - zero : Int) : Rat) cal

/-- setRGB: drives the LED and records the written triple in the
rgb_state global. -/
def setRGB (st : LoopSt) (c : Color) : LoopSt :=
  { st with rgb_state := c, shown := c }

/-- The value stored into the `load` global this iteration:
getWeight when a sample is available, else the sentinel 99999. -/
def loadOf (st : LoopSt) (inp : TickIn) : FVal :=
  if inp.avail then getWeight st.nau_zero st.nau_cal inp.avgReading else FVal.num 99999

/-- The value stored into the `raw_load` global this iteration. -/
def rawOf (inp : TickIn) : Int :=
  if inp.avail then inp.reading else 99999

/-- The max_load / LED section of loop(): only when the new load
exceeds the running maximum is the maximum replaced and the LED
possibly recoloured at the 1.0 / 0.75 / 0.5 thresholds. -/
def tickLoad (st : LoopSt) (load : FVal) : LoopSt :=
  if load.fgt st.max_load then
    let stm := { st with max_load := load }
    if (stm.max_load.divQ (stm.trip_value : Rat)).gtQ 1 then setRGB stm red
    else if (stm.max_load.divQ (stm.trip_value : Rat)).gtQ (mkRat 3 4) then setRGB stm orange
    else if (stm.max_load.divQ (stm.trip_value : Rat)).gtQ (mkRat 1 2) then setRGB stm yellow
    else stm
  else st

/-- The sync section of loop(): on a sync iteration the battery is
measured; a low battery shows blue, otherwise setRGB(rgb_state)
redisplays the saved state. -/
def tickSync (st : LoopSt) (syncDue : Bool) (vbat : Rat) : LoopSt :=
  if syncDue then
    let stv := { st with measuredvbat := vbat }
    if vbat < LOW_BATTERY_VOLTAGE then setRGB stv blue else setRGB stv stv.rgb_state
  else st

/-- One full logging iteration of loop() (the command dispatch and
the early return before log_interval elapses change none of this
state): read or default the sample, write the CSV row, update
max_load and the LED, then run the sync section. -/
def loopTick (st : LoopSt) (inp : TickIn) : LoopSt × Row :=
  (tickSync (tickLoad st (loadOf st inp)) inp.syncDue inp.vbat, ⟨rawOf inp, loadOf st inp⟩)

/-- A run of logging iterations. -/
def runTicks (st : LoopSt) (ins : List TickIn) : LoopSt :=
  ins.foldl (fun s i => (loopTick s i).1) st

/-- The state right after setup(): max_load = 0, LED green
(setRGB(green, 3) is the last act of setup), measuredvbat a C
global initialised to 0. -/
def bootSt (nz : Int) (nc : Rat) (trip : Int) : LoopSt :=
  ⟨nz, nc, FVal.num 0, green, green, trip, 0⟩

/-- Modelled from the spec: the Calibration Model contract
`convert(raw) -> value` with `value = (raw - zero_offset) /
scale_factor` when `scale_factor != 0`, and failure ("uncalibrated",
here `none`) when `scale_factor == 0`.  The firmware itself has no
such operation; its loop calls the library getWeight above, which
cannot fail. -/
def convert (zero_offset : Int) (scale_factor : Rat) (raw : Int) : Option Rat :=
  if scale_factor = 0 then none
  else some (qDiv ((raw - zero_offset : Int) : Rat) scale_factor)

/-! ### Calibration commands and persistence (claim C2) -/

/-- The calibration state visible to the tare and calibration
commands: the library state (`nau_zero`, `nau_cal`, as set by
calculateZeroOffset / calculateCalibrationFactor), the global
variables `zero_offset`/`cal_factor` that saveSystemSettings
serialises, and the values last persisted to config.txt. -/
structure CalSt where
  nau_zero : Int
  nau_cal : Rat
  zero_offset : Rat
  cal_factor : Rat
  saved_zero : Rat
  saved_cal : Rat
deriving DecidableEq, Repr

/-- The effect of saveSystemSettings on the persisted calibration
fields: it writes the current globals, whatever they hold. -/
def saveCal (st : CalSt) : CalSt :=
  { st with saved_zero := st.zero_offset, saved_cal := st.cal_factor }

/-- The tare command handler (case 't'):
`load_cell.calculateZeroOffset(); saveSystemSettings();`.
calculateZeroOffset stores the averaged reading in the library;
the global zero_offset is never updated before the save. -/
def tareCmd (st : CalSt) (avgReading : Int) : CalSt :=
  saveCal { st with nau_zero := avgReading }

/-- calibrateScale (case 'c') on the confirmed path: zero the cell
from an averaged reading, copy the library zero offset into the
global, derive the calibration factor from the known weight, copy it
into the global, then save. -/
def calibrateScale (st : CalSt) (avg0 avgW : Int) (weightOnScale : Rat) : CalSt :=
  let st1 := { st with nau_zero := avg0 }
  let st2 := { st1 with zero_offset := (st1.nau_zero : Rat) }
  let st3 := { st2 with nau_cal := qDiv ((avgW - st2.nau_zero : Int) : Rat) weightOnScale }
  let st4 := { st3 with cal_factor := st3.nau_cal }
  saveCal st4

/-! ### Interval commands (claim C6) -/

/-- setLogInterval: read a value; if it exceeds the current sync
interval, report and re-prompt (recursively); otherwise commit and
save.  The input list is the sequence of values the operator enters;
the result is the (log_interval, sync_interval) pair handed to
saveSystemSettings, or none if input runs out (the device would
block waiting). -/
def setLogInterval (sync_interval : Int) : List Int → Option (Int × Int)
  | [] => none
  | v :: rest =>
    if sync_interval < v then setLogInterval sync_interval rest
    else some (v, sync_interval)

/-- setSyncInterval: symmetric to setLogInterval, rejecting values
below the current log interval. -/
def setSyncInterval (log_interval : Int) : List Int → Option (Int × Int)
  | [] => none
  | v :: rest =>
    if v < log_interval then setSyncInterval log_interval rest
    else some (log_interval, v)

/-! ### Session log file selection at boot (claim C8) -/

/-- sprintf "%02d": zero-pad to at least two characters. -/
def fmt02 (n : Nat) : List Char :=
  if n < 10 then [digitChar 0, digitChar n] else natChars n

/-- The sprintf(filename, "%02d%02d%02d00.CSV", year % 1000, month,
day) template filled at setup. -/
def baseFilename (y m d : Nat) : List Char :=
  fmt02 (y % 1000) ++ fmt02 m ++ fmt02 d ++ [digitChar 0, digitChar 0] ++ ['.', 'C', 'S', 'V']

/-- The loop body patches characters 6 and 7 with the sequence
number i: filename[6] = i/10 + '0'; filename[7] = i%10 + '0'. -/
def seqFilename (y m d i : Nat) : List Char :=
  ((baseFilename y m d).set 6 (digitChar (i / 10))).set 7 (digitChar (i % 10))

/-- The for loop of setup(): try sequence numbers i = 0..99 in order
and stop at the first filename not present on the card.  `fuel`
counts the remaining iterations (100 at the start). -/
def chooseLoop (ex : Nat → Bool) : Nat → Nat → Option Nat
  | _, 0 => none
  | i, fuel + 1 => if ex i then chooseLoop ex (i + 1) fuel else some i

/-- The filename opened at boot, given the list of files on the
card: the first sequence for today's date that does not exist. -/
def chooseLogfile (files : List (List Char)) (y m d : Nat) : Option (List Char) :=
  (chooseLoop (fun i => files.contains (seqFilename y m d i)) 0 100).map (seqFilename y m d)

/-! ### readSerial (claim C9) -/

/-- The indices of serial_data written by readSerial for a given
incoming character sequence, starting from data_index = 0: a
character is stored (and the index advanced) whenever
data_index <= SERIAL_SIZE and the character is not a terminator. -/
def readSerialWrites : List Char → Nat → List Nat
  | [], _ => []
  | ch :: rest, data_index =>
    if data_index ≤ SERIAL_SIZE ∧ ch ≠ '\n' ∧ ch ≠ '\r' ∧ ch ≠ ',' then
      data_index :: readSerialWrites rest (data_index + 1)
    else readSerialWrites rest data_index

/-! ### getCalibration (claim C10) -/

/-- The gain table gain_value_table. -/
def gain_value_table : List Int := [1, 2, 4, 8, 16, 32, 64, 128]

/-- The four values printed by getCalibration. -/
structure CalReport where
  zeroOff : Int
  calFac : Rat
  gain : Int
  trip : Int
deriving DecidableEq, Repr

/-- getCalibration prints the library zero offset and calibration
factor, the gain from the table, and - regardless of the trip_value
global - the constant DEFAULT_TRIP_VALUE. -/
def getCalibration (nau_zero : Int) (nau_cal : Rat) (gain_setting : Nat)
    (trip_value : Int) : CalReport :=
  ⟨nau_zero, nau_cal, gain_value_table.getD gain_setting 0, DEFAULT_TRIP_VALUE⟩

/-- The shape of input on which the digit loop of atoi halts
immediately: an empty list or a leading non-digit. -/
def headNotDigit : List Char → Prop
  | [] => True
  | c :: _ => c.isDigit = false

theorem qAdd_eq (a b : Rat) : qAdd a b = a + b := by
  have ha : ((a.den : Rat)) ≠ 0 := by
    exact_mod_cast a.den_nz
  have hb : ((b.den : Rat)) ≠ 0 := by
    exact_mod_cast b.den_nz
  conv_rhs => rw [← Rat.num_div_den a, ← Rat.num_div_den b]
  unfold qAdd
  rw [Rat.mkRat_eq_div]
  push_cast
  field_simp

theorem qSub_eq (a b : Rat) : qSub a b = a - b := by
  have ha : ((a.den : Rat)) ≠ 0 := by
    exact_mod_cast a.den_nz
  have hb : ((b.den : Rat)) ≠ 0 := by
    exact_mod_cast b.den_nz
  conv_rhs => rw [← Rat.num_div_den a, ← Rat.num_div_den b]
  unfold qSub
  rw [Rat.mkRat_eq_div]
  push_cast
  field_simp
  ring

theorem qMul_eq (a b : Rat) : qMul a b = a * b := by
  have ha : ((a.den : Rat)) ≠ 0 := by
    exact_mod_cast a.den_nz
  have hb : ((b.den : Rat)) ≠ 0 := by
    exact_mod_cast b.den_nz
  conv_rhs => rw [← Rat.num_div_den a, ← Rat.num_div_den b]
  unfold qMul
  rw [Rat.mkRat_eq_div]
  push_cast
  field_simp

theorem qDiv_eq (a b : Rat) (hb : b ≠ 0) : qDiv a b = a / b := by
  have hbn : b.num ≠ 0 := Rat.num_ne_zero.mpr hb
  have ha : ((a.den : Rat)) ≠ 0 := by
    exact_mod_cast a.den_nz
  have hbd : ((b.den : Rat)) ≠ 0 := by
    exact_mod_cast b.den_nz
  have hm : ((b.num.natAbs : Rat)) ≠ 0 := by
    exact_mod_cast Int.natAbs_ne_zero.mpr hbn
  have hq : ((b.num : Rat)) ≠ 0 := by
    exact_mod_cast hbn
  unfold qDiv
  split
  case isTrue hneg =>
    have hlt : ((b.num : Rat)) < 0 := by
      exact_mod_cast hneg
    have habs : ((b.num.natAbs : Rat)) = -((b.num : Rat)) := by
      rw [Int.cast_natAbs]
      exact_mod_cast abs_of_neg hneg
    rw [Rat.mkRat_eq_div]
    conv_rhs => rw [← Rat.num_div_den a, ← Rat.num_div_den b]
    push_cast
    rw [habs]
    field_simp
  case isFalse hpos =>
    have hge : (0 : Rat) ≤ ((b.num : Rat)) := by
      exact_mod_cast (by omega : (0 : Int) ≤ b.num)
    have habs : ((b.num.natAbs : Rat)) = ((b.num : Rat)) := by
      rw [Int.cast_natAbs]
      exact_mod_cast abs_of_nonneg (by omega : (0 : Int) ≤ b.num)
    rw [Rat.mkRat_eq_div]
    conv_rhs => rw [← Rat.num_div_den a, ← Rat.num_div_den b]
    push_cast
    rw [habs]
    field_simp

/-- Batteries floor agrees with the Mathlib floor on the rationals. -/
theorem ratFloor_eq (q : Rat) : q.floor = Int.floor q := rfl


example :
    (readSystemSettings
      (saveSystemSettings ⟨true, 1000, 10000, 40, 500, 1700⟩) cfgBoot).1 =
      ⟨true, 1000, 10000, 40, 500, 1700⟩ := by decide

example :
    (readSystemSettings
      (saveSystemSettings ⟨true, 1000, 10000, mkRat 1 2, 500, 1700⟩) cfgBoot).1.cal_factor = 0 := by
  decide



/-! ### Claim C2: calibration persistence (tare) -/

/-- Supporting fact: tare updates only the library zero offset and
then saves the untouched globals. -/
theorem tareCmd_effect (st : CalSt) (r : Int) :
    (tareCmd st r).nau_zero = r ∧ (tareCmd st r).saved_zero = st.zero_offset :=
  ⟨rfl, rfl⟩

/-- Supporting fact: calibrateScale does persist exactly the values
it computed. -/
theorem calibrateScale_persists (st : CalSt) (avg0 avgW : Int) (w : Rat) :
    (calibrateScale st avg0 avgW w).saved_zero =
      ((calibrateScale st avg0 avgW w).nau_zero : Rat) ∧
    (calibrateScale st avg0 avgW w).saved_cal = (calibrateScale st avg0 avgW w).nau_cal :=
  ⟨rfl, rfl⟩

/-- C2: the tare command computes a new zero offset (2222, the
averaged reading) inside the load-cell library, yet the settings
record written immediately afterwards still carries the stale global
zero_offset (1000): the persisted value is not the value the
operation just computed, contradicting the claim that every
calibration-mutating operation persists its result. -/
theorem c2_tare_persists_stale_zero :
    (tareCmd ⟨0, 40, 1000, 40, 1000, 40⟩ 2222).nau_zero = 2222 ∧
    (tareCmd ⟨0, 40, 1000, 40, 1000, 40⟩ 2222).saved_zero = 1000 ∧
    (1000 : Rat) ≠ (2222 : Rat) := by decide

/-! ### Claim C3: uncalibrated conversion in the sampling loop -/

/-- C3 counterexample: with scale_factor = 0 the spec conversion
fails (none = "uncalibrated"), but the loop iteration still produces
a full sample record: the raw count 5000 together with a load value
(the float infinity from the unguarded division) - no uncalibrated
condition is signalled and the load column is written. -/
theorem c3_uncalibrated_tick_counterexample :
    convert 1000 0 5000 = none ∧
    (loopTick ⟨1000, 0, FVal.num 0, green, green, 1700, 0⟩
        ⟨true, 5000, 5000, false, 0⟩).2 = ⟨5000, FVal.inf⟩ := by decide

/-- C3 amended: on every available tick taken with scale_factor = 0
the loop records the raw count unchanged and records a load value
that is the non-finite float from dividing by zero (inf, or nan when
the averaged reading is at or below the zero offset); no finite
numeric value and no uncalibrated signal is produced. -/
theorem c3_uncalibrated_tick_amended (nz : Int) (mx : FVal) (cr cs : Color)
    (t : Int) (vb : Rat) (r avg : Int) (sd : Bool) (v : Rat) :
    (loopTick ⟨nz, 0, mx, cr, cs, t, vb⟩ ⟨true, r, avg, sd, v⟩).2.raw = r ∧
    ((loopTick ⟨nz, 0, mx, cr, cs, t, vb⟩ ⟨true, r, avg, sd, v⟩).2.load = FVal.inf ∨
     (loopTick ⟨nz, 0, mx, cr, cs, t, vb⟩ ⟨true, r, avg, sd, v⟩).2.load = FVal.nan) ∧
    ∀ q : Rat, (loopTick ⟨nz, 0, mx, cr, cs, t, vb⟩ ⟨true, r, avg, sd, v⟩).2.load ≠ FVal.num q := by
  have hload : (loopTick ⟨nz, 0, mx, cr, cs, t, vb⟩ ⟨true, r, avg, sd, v⟩).2.load =
      getWeight nz 0 avg := rfl
  have h0 : (0 : Int) ≤ (if avg < nz then nz else avg) - nz := by
    split <;> omega
  have h0q : (0 : Rat) ≤ (((if avg < nz then nz else avg) - nz : Int) : Rat) := by
    exact_mod_cast h0
  have hgw : getWeight nz 0 avg = FVal.inf ∨ getWeight nz 0 avg = FVal.nan := by
    unfold getWeight fdiv
    rcases eq_or_lt_of_le h0q with he | hl
    · rw [if_pos rfl, if_pos he.symm]
      exact Or.inr rfl
    · rw [if_pos rfl, if_neg (by linarith), if_pos hl]
      exact Or.inl rfl
  refine ⟨rfl, by rw [hload] ; exact hgw, ?_⟩
  intro q h
  rw [hload] at h
  rcases hgw with hg | hg <;> rw [hg] at h <;> cases h

/-! ### Claim C6: the interval-ordering invariant -/

/-- Any pair committed by setLogInterval satisfies the invariant and
keeps the sync interval unchanged. -/
theorem setLogInterval_le (sync : Int) :
    ∀ (ins : List Int) (p : Int × Int),
      setLogInterval sync ins = some p → p.1 ≤ p.2 ∧ p.2 = sync := by
  intro ins
  induction ins with
  | nil =>
    intro p h
    simp [setLogInterval] at h
  | cons v rest ih =>
    intro p h
    by_cases hv : sync < v
    · rw [setLogInterval, if_pos hv] at h
      exact ih p h
    · rw [setLogInterval, if_neg hv] at h
      cases h
      exact ⟨by omega, rfl⟩

/-- Any pair committed by setSyncInterval satisfies the invariant and
keeps the log interval unchanged. -/
theorem setSyncInterval_le (log : Int) :
    ∀ (ins : List Int) (p : Int × Int),
      setSyncInterval log ins = some p → p.1 ≤ p.2 ∧ p.1 = log := by
  intro ins
  induction ins with
  | nil =>
    intro p h
    simp [setSyncInterval] at h
  | cons v rest ih =>
    intro p h
    by_cases hv : v < log
    · rw [setSyncInterval, if_pos hv] at h
      exact ih p h
    · rw [setSyncInterval, if_neg hv] at h
      cases h
      exact ⟨by omega, rfl⟩

/-- C6: whatever the operator types, a pair persisted by either
interval command satisfies log_interval <= sync_interval, and each
command rejects an offending entry by re-prompting on the remaining
input (the recursion step), in both directions. -/
theorem c6_interval_invariant (sync log w1 w2 : Int) (ins1 ins2 r1 r2 : List Int)
    (p1 p2 : Int × Int)
    (h1 : setLogInterval sync ins1 = some p1)
    (h2 : setSyncInterval log ins2 = some p2)
    (hw1 : sync < w1) (hw2 : w2 < log) :
    p1.1 ≤ p1.2 ∧ p2.1 ≤ p2.2 ∧
    setLogInterval sync (w1 :: r1) = setLogInterval sync r1 ∧
    setSyncInterval log (w2 :: r2) = setSyncInterval log r2 := by
  refine ⟨(setLogInterval_le sync ins1 p1 h1).1, (setSyncInterval_le log ins2 p2 h2).1, ?_, ?_⟩
  · rw [setLogInterval, if_pos hw1]
  · rw [setSyncInterval, if_pos hw2]

/-- C6 witness: sync 10000, entries 20000 (rejected) then 5000
(committed); log 1000, entries 500 (rejected) then 2000 (committed). -/
theorem c6_interval_invariant_witness :
    (5000 : Int) ≤ (10000 : Int) ∧ (1000 : Int) ≤ (2000 : Int) ∧
    setLogInterval 10000 [20000] = setLogInterval 10000 [] ∧
    setSyncInterval 1000 [500] = setSyncInterval 1000 [] :=
  c6_interval_invariant 10000 1000 20000 500 [20000, 5000] [500, 2000] [] []
    (5000, 10000) (1000, 2000) (by decide) (by decide) (by decide) (by decide)

/-! ### Claim C7: the default-calibration flag -/

/-- C7 counterexample: save a record with cal_factor 40 (a real
calibration) and zero_offset 1000 (which merely coincides with the
default); after reload the flag reports default calibration even
though the pair does not equal the sentinel default pair - the flag
is an OR of the two comparisons, not the claimed AND. -/
theorem c7_default_flag_counterexample :
    (readSystemSettings (saveSystemSettings ⟨true, 1000, 10000, 40, 1000, 1700⟩) cfgBoot).2
      = false ∧
    ¬((readSystemSettings (saveSystemSettings ⟨true, 1000, 10000, 40, 1000, 1700⟩)
          cfgBoot).1.cal_factor = DEFAULT_CAL_FACTOR ∧
      (readSystemSettings (saveSystemSettings ⟨true, 1000, 10000, 40, 1000, 1700⟩)
          cfgBoot).1.zero_offset = DEFAULT_ZERO_OFFSET) := by decide

/-- C7 amended: after every load, the negation of settingsDetected
holds if and only if the loaded cal_factor equals DEFAULT_CAL_FACTOR
OR the loaded zero_offset equals DEFAULT_ZERO_OFFSET (either
sentinel alone clears the flag). -/
theorem c7_default_flag_amended (content : List Char) (c0 : Cfg) :
    ((readSystemSettings content c0).2 = false) ↔
      ((readSystemSettings content c0).1.cal_factor = DEFAULT_CAL_FACTOR ∨
       (readSystemSettings content c0).1.zero_offset = DEFAULT_ZERO_OFFSET) := by
  simp only [readSystemSettings, settingsDetectedOf, Bool.not_eq_false', Bool.or_eq_false_iff,
    decide_eq_false_iff_not]
  constructor
  · intro h
    by_cases hc : (readChars content [] c0).cal_factor = DEFAULT_CAL_FACTOR
    · exact Or.inl hc
    · by_cases hz : (readChars content [] c0).zero_offset = DEFAULT_ZERO_OFFSET
      · exact Or.inr hz
      · exact absurd h (by simp [hc, hz])
  · intro h
    rcases h with h | h <;> simp [h]

/-! ### Claim C8: session filename selection -/

/-- The boot filename loop returns the smallest sequence number not
already on the card (and only tries 0..99). -/
theorem chooseLoop_spec (ex : Nat → Bool) :
    ∀ (fuel i k : Nat), chooseLoop ex i fuel = some k →
      ex k = false ∧ i ≤ k ∧ k < i + fuel ∧ ∀ j, i ≤ j → j < k → ex j = true := by
  intro fuel
  induction fuel with
  | zero =>
    intro i k h
    simp [chooseLoop] at h
  | succ n ih =>
    intro i k h
    rw [chooseLoop] at h
    by_cases hex : ex i
    · rw [if_pos hex] at h
      obtain ⟨h1, h2, h3, h4⟩ := ih (i + 1) k h
      refine ⟨h1, by omega, by omega, fun j hj1 hj2 => ?_⟩
      by_cases hji : j = i
      · rw [hji]
        exact hex
      · exact h4 j (by omega) hj2
    · rw [if_neg hex] at h
      cases h
      exact ⟨by simpa using hex, le_refl _, by omega, fun j hj1 hj2 => absurd hj2 (by omega)⟩

/-- C8: when the boot loop selects sequence i, the session file
opened is the date-stamped filename with that sequence, i is within
00..99, that filename is not on the card, and every smaller sequence
for the same date is. -/
theorem c8_filename_selection (files : List (List Char)) (y m d i : Nat)
    (h : chooseLoop (fun i => files.contains (seqFilename y m d i)) 0 100 = some i) :
    chooseLogfile files y m d = some (seqFilename y m d i) ∧ i < 100 ∧
    files.contains (seqFilename y m d i) = false ∧
    ∀ j, j < i → files.contains (seqFilename y m d j) = true := by
  obtain ⟨h1, h2, h3, h4⟩ := chooseLoop_spec _ 100 0 i h
  refine ⟨by rw [chooseLogfile, h] ; rfl, by omega, h1, fun j hj => h4 j (Nat.zero_le j) hj⟩

/-- C8 witness: with 19010100.CSV through 19010105.CSV present the
file for 2019-01-01 is 19010106.CSV; with an empty card it is
19010100.CSV. -/
theorem c8_filename_selection_witness :
    chooseLogfile
      [['1', '9', '0', '1', '0', '1', '0', '0', '.', 'C', 'S', 'V'],
       ['1', '9', '0', '1', '0', '1', '0', '1', '.', 'C', 'S', 'V'],
       ['1', '9', '0', '1', '0', '1', '0', '2', '.', 'C', 'S', 'V'],
       ['1', '9', '0', '1', '0', '1', '0', '3', '.', 'C', 'S', 'V'],
       ['1', '9', '0', '1', '0', '1', '0', '4', '.', 'C', 'S', 'V'],
       ['1', '9', '0', '1', '0', '1', '0', '5', '.', 'C', 'S', 'V']] 2019 1 1 =
      some ['1', '9', '0', '1', '0', '1', '0', '6', '.', 'C', 'S', 'V'] ∧
    chooseLogfile [] 2019 1 1 =
      some ['1', '9', '0', '1', '0', '1', '0', '0', '.', 'C', 'S', 'V'] := by
  have h1 := c8_filename_selection
    [['1', '9', '0', '1', '0', '1', '0', '0', '.', 'C', 'S', 'V'],
     ['1', '9', '0', '1', '0', '1', '0', '1', '.', 'C', 'S', 'V'],
     ['1', '9', '0', '1', '0', '1', '0', '2', '.', 'C', 'S', 'V'],
     ['1', '9', '0', '1', '0', '1', '0', '3', '.', 'C', 'S', 'V'],
     ['1', '9', '0', '1', '0', '1', '0', '4', '.', 'C', 'S', 'V'],
     ['1', '9', '0', '1', '0', '1', '0', '5', '.', 'C', 'S', 'V']] 2019 1 1 6 (by decide)
  have h2 := c8_filename_selection [] 2019 1 1 0 (by decide)
  exact ⟨by rw [h1.1] ; decide, by rw [h2.1] ; decide⟩

/-! ### Claim C9: readSerial buffer bounds -/

/-- C9: sixteen consecutive storable characters drive readSerial to
store at index SERIAL_SIZE = 15, one past the last valid index of
the 15-byte serial_data buffer; the guard `data_index <= SERIAL_SIZE`
admits the out-of-bounds index, so the claimed-unreachable branch is
reached. -/
theorem c9_buffer_overflow_at_16_chars :
    SERIAL_SIZE ∈ readSerialWrites (List.replicate (SERIAL_SIZE + 1) 'a') 0 := by decide

/-! ### Claim C10: the calibration report prints the constant trip value -/

/-- C10: getCalibration output is invariant under any change of the
trip_value global, and its trip line always shows the compile-time
DEFAULT_TRIP_VALUE (1700). -/
theorem c10_trip_report_constant (nz : Int) (nc : Rat) (g : Nat) (t1 t2 : Int) :
    getCalibration nz nc g t1 = getCalibration nz nc g t2 ∧
    (getCalibration nz nc g t1).trip = DEFAULT_TRIP_VALUE :=
  ⟨rfl, rfl⟩

/-! ### Claim C1: settings round trip (counterexample) -/

/-- C1 counterexample: a valid settings record with the fractional
calibration factor 1/2 does not survive the save/load round trip:
the reloaded cal_factor is 0 (the file holds "cal_factor = 0.50" and
atoi truncates at the decimal point). -/
theorem c1_roundtrip_counterexample :
    (readSystemSettings (saveSystemSettings ⟨true, 1000, 10000, mkRat 1 2, 1000, 1700⟩)
        cfgBoot).1 ≠ ⟨true, 1000, 10000, mkRat 1 2, 1000, 1700⟩ ∧
    (readSystemSettings (saveSystemSettings ⟨true, 1000, 10000, mkRat 1 2, 1000, 1700⟩)
        cfgBoot).1.cal_factor = 0 := by decide


/-! ### Claim C5: the running maximum -/

/-- The float comparison is irreflexive. -/
theorem fgt_irrefl (a : FVal) : a.fgt a = false := by
  cases a <;> simp [FVal.fgt]

/-- The float comparison is asymmetric. -/
theorem fgt_asymm (a b : FVal) (h : a.fgt b = true) : b.fgt a = false := by
  cases a <;> cases b <;> simp_all [FVal.fgt] <;> linarith

/-- Transitivity of "not greater" away from NaN. -/
theorem fgt_trans_false (a b c : FVal) (ha : a ≠ FVal.nan) (hb : b ≠ FVal.nan)
    (hc : c ≠ FVal.nan) (h1 : a.fgt b = false) (h2 : b.fgt c = false) :
    a.fgt c = false := by
  cases a <;> cases b <;> cases c <;> simp_all [FVal.fgt] <;> linarith

/-- tickLoad leaves the calibration and trip fields alone. -/
theorem tickLoad_fields (st : LoopSt) (l : FVal) :
    (tickLoad st l).nau_zero = st.nau_zero ∧ (tickLoad st l).nau_cal = st.nau_cal ∧
    (tickLoad st l).trip_value = st.trip_value := by
  simp only [tickLoad, setRGB]
  repeat' split
  all_goals exact ⟨rfl, rfl, rfl⟩

/-- tickLoad performs exactly the float-max update on max_load. -/
theorem tickLoad_max (st : LoopSt) (l : FVal) :
    (tickLoad st l).max_load = if l.fgt st.max_load then l else st.max_load := by
  simp only [tickLoad, setRGB]
  repeat' split
  all_goals simp_all

/-- tickSync touches neither max_load nor the calibration and trip
fields. -/
theorem tickSync_fields (st : LoopSt) (b : Bool) (v : Rat) :
    (tickSync st b v).max_load = st.max_load ∧ (tickSync st b v).nau_zero = st.nau_zero ∧
    (tickSync st b v).nau_cal = st.nau_cal ∧ (tickSync st b v).trip_value = st.trip_value := by
  simp only [tickSync, setRGB]
  repeat' split
  all_goals exact ⟨rfl, rfl, rfl, rfl⟩

/-- One loop iteration leaves the calibration and trip fields alone. -/
theorem loopTick_fields (st : LoopSt) (i : TickIn) :
    (loopTick st i).1.nau_zero = st.nau_zero ∧ (loopTick st i).1.nau_cal = st.nau_cal ∧
    (loopTick st i).1.trip_value = st.trip_value := by
  obtain ⟨h1, h2, h3⟩ := tickLoad_fields st (loadOf st i)
  obtain ⟨g1, g2, g3, g4⟩ := tickSync_fields (tickLoad st (loadOf st i)) i.syncDue i.vbat
  exact ⟨g2.trans h1, g3.trans h2, g4.trans h3⟩

/-- One loop iteration performs exactly the float-max update on
max_load. -/
theorem loopTick_max (st : LoopSt) (i : TickIn) :
    (loopTick st i).1.max_load =
      if (loadOf st i).fgt st.max_load then loadOf st i else st.max_load := by
  have h := (tickSync_fields (tickLoad st (loadOf st i)) i.syncDue i.vbat).1
  exact h.trans (tickLoad_max st (loadOf st i))

/-- The per-tick load value only depends on the calibration fields. -/
theorem loadOf_congr (st st' : LoopSt) (i : TickIn) (h1 : st.nau_zero = st'.nau_zero)
    (h2 : st.nau_cal = st'.nau_cal) : loadOf st i = loadOf st' i := by
  unfold loadOf
  rw [h1, h2]

/-- Appending runs composes. -/
theorem runTicks_append (st : LoopSt) (l1 l2 : List TickIn) :
    runTicks st (l1 ++ l2) = runTicks (runTicks st l1) l2 :=
  List.foldl_append ..

/-- One step of the float-max update never decreases a non-NaN
maximum and keeps it non-NaN. -/
theorem fgt_step_false (m l : FVal) (hm : m ≠ FVal.nan) :
    FVal.fgt m (if FVal.fgt l m then l else m) = false ∧
    (if FVal.fgt l m then l else m) ≠ FVal.nan := by
  by_cases h : FVal.fgt l m = true
  · rw [if_pos h]
    refine ⟨fgt_asymm l m h, ?_⟩
    intro hl
    rw [hl] at h
    simp [FVal.fgt] at h
  · rw [if_neg h]
    exact ⟨fgt_irrefl m, hm⟩

/-- C5 amended: across any run, max_load is the left fold of the
float-max over every per-tick load value (99999 on an unavailable
tick included), and it never decreases. -/
theorem c5_max_load_amended (st : LoopSt) (q0 : Rat) (ins : List TickIn)
    (hm : st.max_load = FVal.num q0) :
    (runTicks st ins).max_load =
      ins.foldl (fun m i => if (loadOf st i).fgt m then loadOf st i else m) st.max_load ∧
    FVal.fgt st.max_load (runTicks st ins).max_load = false := by
  have main : ∀ (l : List TickIn) (s : LoopSt), s.max_load ≠ FVal.nan →
      (runTicks s l).max_load =
        l.foldl (fun m i => if (loadOf s i).fgt m then loadOf s i else m) s.max_load ∧
      FVal.fgt s.max_load (runTicks s l).max_load = false ∧
      (runTicks s l).max_load ≠ FVal.nan := by
    intro l
    induction l with
    | nil =>
      intro s hs
      exact ⟨rfl, fgt_irrefl _, hs⟩
    | cons i rest ih =>
      intro s hs
      have hrun : runTicks s (i :: rest) = runTicks (loopTick s i).1 rest := rfl
      have hmax := loopTick_max s i
      obtain ⟨hstep, hnn⟩ := fgt_step_false s.max_load (loadOf s i) hs
      obtain ⟨ih1, ih2, ih3⟩ := ih (loopTick s i).1 (by rw [hmax] ; exact hnn)
      obtain ⟨f1, f2, f3⟩ := loopTick_fields s i
      refine ⟨?_, ?_, by rw [hrun] ; exact ih3⟩
      · rw [hrun, ih1, List.foldl_cons, hmax]
        congr 1
        funext m j
        rw [loadOf_congr (loopTick s i).1 s j f1 f2]
      · rw [hrun]
        refine fgt_trans_false s.max_load (loopTick s i).1.max_load
          (runTicks (loopTick s i).1 rest).max_load hs (by rw [hmax] ; exact hnn) ih3 ?_ ih2
        rw [hmax]
        exact hstep
  obtain ⟨h1, h2, _⟩ := main ins st (by rw [hm] ; intro h ; cases h)
  exact ⟨h1, h2⟩

/-- C5 witness: from the boot state, one unavailable tick; the fold
and the never-decreases conclusion instantiated concretely. -/
theorem c5_max_load_amended_witness :
    (runTicks (bootSt 1000 40 1700) [⟨false, 0, 0, false, 0⟩]).max_load =
      [(⟨false, 0, 0, false, 0⟩ : TickIn)].foldl
        (fun m i => if (loadOf (bootSt 1000 40 1700) i).fgt m
          then loadOf (bootSt 1000 40 1700) i else m) (bootSt 1000 40 1700).max_load ∧
    FVal.fgt (bootSt 1000 40 1700).max_load
      (runTicks (bootSt 1000 40 1700) [⟨false, 0, 0, false, 0⟩]).max_load = false :=
  c5_max_load_amended (bootSt 1000 40 1700) 0 [⟨false, 0, 0, false, 0⟩] rfl

/-- C5 counterexample: a tick whose sensor reading is unavailable
records the sentinel 99999 and raises max_load from 0 to 99999,
contradicting the claim that such a tick cannot raise the maximum
(it even recolours the LED red, as 99999 exceeds any realistic trip
value). -/
theorem c5_sentinel_raises_max_counterexample :
    (runTicks (bootSt 1000 40 1700) [⟨false, 0, 0, false, 0⟩]).max_load = FVal.num 99999 ∧
    (bootSt 1000 40 1700).max_load = FVal.num 0 ∧
    (runTicks (bootSt 1000 40 1700) [⟨false, 0, 0, false, 0⟩]).shown = red := by decide


/-! ### Claim C4: the indicator policy -/

/-- Once the ratio max_load / trip_value exceeds 1, it still exceeds
1 after max_load is replaced by a larger float (trip_value positive). -/
theorem ratio_gt_one_mono (l m : FVal) (t : Int) (ht : 0 < t)
    (hgt : l.fgt m = true) (hm : (m.divQ (t : Rat)).gtQ 1 = true) :
    (l.divQ (t : Rat)).gtQ 1 = true := by
  have htq : (0 : Rat) < (t : Rat) := by
    exact_mod_cast ht
  have htne : ((t : Rat)) ≠ 0 := ne_of_gt htq
  have htnlt : ¬ ((t : Rat) < 0) := by linarith
  cases l with
  | nan => simp [FVal.fgt] at hgt
  | ninf =>
    cases m <;> simp [FVal.fgt] at hgt
  | inf => simp [FVal.divQ, FVal.gtQ, htnlt]
  | num a =>
    cases m with
    | nan => simp [FVal.fgt] at hgt
    | inf => simp [FVal.fgt] at hgt
    | ninf => simp [FVal.divQ, FVal.gtQ, htnlt] at hm
    | num b =>
      simp only [FVal.fgt, decide_eq_true_eq] at hgt
      simp only [FVal.divQ, fdiv, if_neg htne, FVal.gtQ, decide_eq_true_eq] at hm ⊢
      rw [qDiv_eq _ _ htne] at hm ⊢
      have hlt : b / (t : Rat) < a / (t : Rat) := by gcongr
      linarith

/-- The sync section keeps rgb_state and the LED in lockstep, and
can only redisplay the saved colour or switch to battery blue. -/
theorem tickSync_inv (st : LoopSt) (b : Bool) (v : Rat) (hrs : st.rgb_state = st.shown) :
    (tickSync st b v).rgb_state = (tickSync st b v).shown ∧
    ((tickSync st b v).shown = st.shown ∨ (tickSync st b v).shown = blue) := by
  simp only [tickSync, setRGB]
  repeat' split
  all_goals simp_all

/-- The load section preserves the indicator invariant: rgb_state
mirrors the display; red is only shown with the trip ratio above 1;
and once red or battery blue is displayed with the ratio above 1,
the section keeps the display in that set with the ratio above 1. -/
theorem tickLoad_inv (st : LoopSt) (l : FVal) (htrip : 0 < st.trip_value)
    (hrs : st.rgb_state = st.shown)
    (hred : st.shown = red → (st.max_load.divQ (st.trip_value : Rat)).gtQ 1 = true) :
    (tickLoad st l).rgb_state = (tickLoad st l).shown ∧
    ((tickLoad st l).shown = red →
      ((tickLoad st l).max_load.divQ (st.trip_value : Rat)).gtQ 1 = true) ∧
    ((st.shown = red ∨ st.shown = blue) →
      (st.max_load.divQ (st.trip_value : Rat)).gtQ 1 = true →
      (((tickLoad st l).shown = red ∨ (tickLoad st l).shown = blue) ∧
       ((tickLoad st l).max_load.divQ (st.trip_value : Rat)).gtQ 1 = true)) := by
  simp only [tickLoad, setRGB]
  by_cases hf : l.fgt st.max_load = true
  · rw [if_pos hf]
    by_cases h1 : (FVal.divQ l (st.trip_value : Rat)).gtQ 1 = true
    · rw [if_pos h1]
      exact ⟨rfl, fun _ => h1, fun _ _ => ⟨Or.inl rfl, h1⟩⟩
    · rw [if_neg h1]
      by_cases h2 : (FVal.divQ l (st.trip_value : Rat)).gtQ (mkRat 3 4) = true
      · rw [if_pos h2]
        exact ⟨rfl, fun hc => absurd (show orange = red from hc) (by decide),
          fun hs hr => absurd (ratio_gt_one_mono l st.max_load st.trip_value htrip hf hr) h1⟩
      · rw [if_neg h2]
        by_cases h3 : (FVal.divQ l (st.trip_value : Rat)).gtQ (mkRat 1 2) = true
        · rw [if_pos h3]
          exact ⟨rfl, fun hc => absurd (show yellow = red from hc) (by decide),
            fun hs hr => absurd (ratio_gt_one_mono l st.max_load st.trip_value htrip hf hr) h1⟩
        · rw [if_neg h3]
          exact ⟨hrs,
            fun hc => absurd (ratio_gt_one_mono l st.max_load st.trip_value htrip hf (hred hc)) h1,
            fun hs hr => absurd (ratio_gt_one_mono l st.max_load st.trip_value htrip hf hr) h1⟩
  · rw [if_neg hf]
    exact ⟨hrs, hred, fun hs hr => ⟨hs, hr⟩⟩

/-- One full iteration preserves the indicator invariant. -/
theorem loopTick_inv (st : LoopSt) (i : TickIn) (htrip : 0 < st.trip_value)
    (hrs : st.rgb_state = st.shown)
    (hred : st.shown = red → (st.max_load.divQ (st.trip_value : Rat)).gtQ 1 = true) :
    (loopTick st i).1.rgb_state = (loopTick st i).1.shown ∧
    ((loopTick st i).1.shown = red →
      ((loopTick st i).1.max_load.divQ ((loopTick st i).1.trip_value : Rat)).gtQ 1 = true) ∧
    ((st.shown = red ∨ st.shown = blue) →
      (st.max_load.divQ (st.trip_value : Rat)).gtQ 1 = true →
      (((loopTick st i).1.shown = red ∨ (loopTick st i).1.shown = blue) ∧
       ((loopTick st i).1.max_load.divQ ((loopTick st i).1.trip_value : Rat)).gtQ 1 = true)) := by
  obtain ⟨a1, a2, a3⟩ := tickLoad_inv st (loadOf st i) htrip hrs hred
  obtain ⟨b1, b2⟩ := tickSync_inv (tickLoad st (loadOf st i)) i.syncDue i.vbat a1
  have hmax : (loopTick st i).1.max_load = (tickLoad st (loadOf st i)).max_load :=
    (tickSync_fields (tickLoad st (loadOf st i)) i.syncDue i.vbat).1
  have htr : (loopTick st i).1.trip_value = st.trip_value := (loopTick_fields st i).2.2
  have hsh : (loopTick st i).1.shown = (tickSync (tickLoad st (loadOf st i)) i.syncDue i.vbat).shown := rfl
  have hblue : blue ≠ red := by decide
  refine ⟨b1, ?_, ?_⟩
  · intro hc
    rw [hsh] at hc
    rcases b2 with hb | hb
    · rw [hc] at hb
      have := a2 hb.symm
      rw [hmax, htr]
      exact this
    · rw [hb] at hc
      exact absurd hc hblue
  · intro hs hr
    obtain ⟨c1, c2⟩ := a3 hs hr
    rw [hsh, hmax, htr]
    rcases b2 with hb | hb
    · rw [hb]
      exact ⟨c1, c2⟩
    · rw [hb]
      exact ⟨Or.inr rfl, c2⟩

/-- Across a run the indicator invariant holds. -/
theorem runTicks_inv (ins : List TickIn) : ∀ (st : LoopSt), 0 < st.trip_value →
    st.rgb_state = st.shown →
    (st.shown = red → (st.max_load.divQ (st.trip_value : Rat)).gtQ 1 = true) →
    ((runTicks st ins).rgb_state = (runTicks st ins).shown ∧
     ((runTicks st ins).shown = red →
       ((runTicks st ins).max_load.divQ ((runTicks st ins).trip_value : Rat)).gtQ 1 = true) ∧
     (runTicks st ins).trip_value = st.trip_value) := by
  induction ins with
  | nil =>
    intro st h1 h2 h3
    exact ⟨h2, h3, rfl⟩
  | cons i rest ih =>
    intro st h1 h2 h3
    obtain ⟨a1, a2, a3⟩ := loopTick_inv st i h1 h2 h3
    have htr : (loopTick st i).1.trip_value = st.trip_value := (loopTick_fields st i).2.2
    obtain ⟨r1, r2, r3⟩ := ih (loopTick st i).1 (by rw [htr] ; exact h1) a1 a2
    exact ⟨r1, r2, r3.trans htr⟩

/-- Once red or battery blue is displayed with the trip ratio above
1, every later display stays in that two-colour set. -/
theorem runTicks_red_locked (ins : List TickIn) : ∀ (st : LoopSt), 0 < st.trip_value →
    st.rgb_state = st.shown →
    (st.shown = red ∨ st.shown = blue) →
    (st.max_load.divQ (st.trip_value : Rat)).gtQ 1 = true →
    ((runTicks st ins).shown = red ∨ (runTicks st ins).shown = blue) := by
  induction ins with
  | nil =>
    intro st h1 h2 h3 h4
    exact h3
  | cons i rest ih =>
    intro st h1 h2 h3 h4
    obtain ⟨a1, a2, a3⟩ := loopTick_inv st i h1 h2 (fun _ => h4)
    obtain ⟨c1, c2⟩ := a3 h3 h4
    have htr : (loopTick st i).1.trip_value = st.trip_value := (loopTick_fields st i).2.2
    exact ih (loopTick st i).1 (by rw [htr] ; exact h1) a1 c1 c2

/-- C4 amended (the monotonicity half of the claim, which holds):
once the trip-exceeded red has been displayed during a run started
from the boot state, every later iteration displays either red or
the battery-low blue override - never a lower-tier colour - until a
reboot. -/
theorem c4_red_monotonic (nz : Int) (nc : Rat) (trip : Int) (htrip : 0 < trip)
    (ins tail : List TickIn)
    (h : (runTicks (bootSt nz nc trip) ins).shown = red) :
    (runTicks (bootSt nz nc trip) (ins ++ tail)).shown = red ∨
    (runTicks (bootSt nz nc trip) (ins ++ tail)).shown = blue := by
  have hb2 : (bootSt nz nc trip).rgb_state = (bootSt nz nc trip).shown := rfl
  have hb3 : (bootSt nz nc trip).shown = red →
      ((bootSt nz nc trip).max_load.divQ ((bootSt nz nc trip).trip_value : Rat)).gtQ 1 = true := by
    intro hc
    have hg : (bootSt nz nc trip).shown = green := rfl
    rw [hg] at hc
    exact absurd hc (by decide)
  obtain ⟨a1, a2, a3⟩ := runTicks_inv ins (bootSt nz nc trip) htrip hb2 hb3
  have hratio := a2 h
  have h1 : 0 < (runTicks (bootSt nz nc trip) ins).trip_value := by
    rw [a3]
    exact htrip
  have hlock := runTicks_red_locked tail (runTicks (bootSt nz nc trip) ins) h1 a1 (Or.inl h) hratio
  rw [runTicks_append]
  exact hlock

/-- C4 witness: trip 1700; a first tick with converted value 2000
shows red; a later sync tick with a low battery shows blue, which is
in the allowed set. -/
theorem c4_red_monotonic_witness :
    (0 : Int) < 1700 ∧
    (runTicks (bootSt 0 1 1700) [⟨true, 2000, 2000, false, 0⟩]).shown = red ∧
    ((runTicks (bootSt 0 1 1700) ([⟨true, 2000, 2000, false, 0⟩] ++ [⟨true, 0, 0, true, 3⟩])).shown
        = red ∨
     (runTicks (bootSt 0 1 1700) ([⟨true, 2000, 2000, false, 0⟩] ++ [⟨true, 0, 0, true, 3⟩])).shown
        = blue) :=
  ⟨by decide, by decide,
    c4_red_monotonic 0 1 1700 (by decide) [⟨true, 2000, 2000, false, 0⟩]
      [⟨true, 0, 0, true, 3⟩] (by decide)⟩

/-- C4 counterexample (the purity half of the claim fails): the
displayed colour is not a function of (max_load, trip_value, battery
measurement).  Two runs that end with identical maximum 2000, trip
1700 and battery 4 V display different colours, because a transient
low-battery sync latched blue into rgb_state in one of them. -/
theorem c4_purity_counterexample :
    ¬ ∃ f : FVal → Int → Rat → Color, ∀ ins : List TickIn,
        (runTicks (bootSt 0 1 1700) ins).shown =
          f (runTicks (bootSt 0 1 1700) ins).max_load
            (runTicks (bootSt 0 1 1700) ins).trip_value
            (runTicks (bootSt 0 1 1700) ins).measuredvbat := by
  rintro ⟨f, hf⟩
  have hA := hf [⟨true, 2000, 2000, true, 4⟩, ⟨true, 0, 0, true, 4⟩]
  have hB := hf [⟨true, 2000, 2000, true, 3⟩, ⟨true, 0, 0, true, 4⟩]
  have eA : runTicks (bootSt 0 1 1700) [⟨true, 2000, 2000, true, 4⟩, ⟨true, 0, 0, true, 4⟩] =
      ⟨0, 1, FVal.num 2000, red, red, 1700, 4⟩ := by decide
  have eB : runTicks (bootSt 0 1 1700) [⟨true, 2000, 2000, true, 3⟩, ⟨true, 0, 0, true, 4⟩] =
      ⟨0, 1, FVal.num 2000, blue, blue, 1700, 4⟩ := by decide
  rw [eA] at hA
  rw [eB] at hB
  have hrb : red = blue := hA.trans hB.symm
  exact absurd hrb (by decide)


/-! ### Claim C1: the settings round trip (general machinery) -/

/-- Character facts about rendered decimal digits. -/
theorem digitChar_props (d : Nat) (h : d < 10) :
    (digitChar d).isDigit = true ∧ (digitChar d).toNat - 48 = d ∧
    delimEq (digitChar d) = false ∧ delimSp (digitChar d) = false ∧
    (digitChar d).isWhitespace = false ∧ digitChar d ≠ '\n' ∧ digitChar d ≠ '\r' ∧
    digitChar d ≠ '-' ∧ digitChar d ≠ '+' := by
  interval_cases d <;> exact (by decide)

/-- Every character produced by the digit expansion is a decimal
digit character. -/
theorem mem_natCharsAux (fuel : Nat) :
    ∀ (n : Nat), ∀ c ∈ natCharsAux fuel n, ∃ d, d < 10 ∧ c = digitChar d := by
  induction fuel with
  | zero =>
    intro n c hc
    simp [natCharsAux] at hc
  | succ f ih =>
    intro n c hc
    cases n with
    | zero => simp [natCharsAux] at hc
    | succ m =>
      rw [natCharsAux, List.mem_append] at hc
      rcases hc with hc | hc
      · exact ih _ c hc
      · rw [List.mem_singleton] at hc
        exact ⟨(m + 1) % 10, Nat.mod_lt _ (by norm_num), hc⟩

/-- Every character of a rendered natural number is a digit
character. -/
theorem mem_natChars (n : Nat) : ∀ c ∈ natChars n, ∃ d, d < 10 ∧ c = digitChar d := by
  intro c hc
  unfold natChars at hc
  by_cases hn : n = 0
  · rw [if_pos hn, List.mem_singleton] at hc
    exact ⟨0, by norm_num, hc⟩
  · rw [if_neg hn] at hc
    exact mem_natCharsAux n n c hc

/-- The digit loop of atoi consumes a block of digits in one pass. -/
theorem digitsVal_append (l rest : List Char) (acc : Nat)
    (h : ∀ c ∈ l, c.isDigit = true) :
    digitsVal (l ++ rest) acc = digitsVal rest (digitsVal l acc) := by
  induction l generalizing acc with
  | nil => rfl
  | cons c t ih =>
    have hc := h c (by simp)
    simp only [List.cons_append, digitsVal, if_pos hc]
    exact ih _ (fun x hx => h x (by simp [hx]))

/-- The digit loop of atoi halts on a leading non-digit. -/
theorem digitsVal_stop (rest : List Char) (acc : Nat) (h : headNotDigit rest) :
    digitsVal rest acc = acc := by
  cases rest with
  | nil => rfl
  | cons c t =>
    simp only [headNotDigit] at h
    simp only [digitsVal, h]
    rfl

/-- The digit loop evaluates a digit expansion positionally. -/
theorem digitsVal_natCharsAux (fuel : Nat) :
    ∀ (n : Nat), n ≤ fuel → ∀ acc,
      digitsVal (natCharsAux fuel n) acc = acc * 10 ^ (natCharsAux fuel n).length + n := by
  induction fuel with
  | zero =>
    intro n hn acc
    interval_cases n
    simp [natCharsAux, digitsVal]
  | succ f ih =>
    intro n hn acc
    cases n with
    | zero => simp [natCharsAux, digitsVal]
    | succ m =>
      have hle : (m + 1) / 10 ≤ f := by omega
      have hdig : ∀ c ∈ natCharsAux f ((m + 1) / 10), c.isDigit = true := by
        intro c hc
        obtain ⟨d, hd, rfl⟩ := mem_natCharsAux f _ c hc
        exact (digitChar_props d hd).1
      have hd10 : (m + 1) % 10 < 10 := Nat.mod_lt _ (by norm_num)
      obtain ⟨p1, p2, _⟩ := digitChar_props _ hd10
      rw [natCharsAux, digitsVal_append _ _ acc hdig, ih _ hle acc]
      simp only [digitsVal, if_pos p1, p2]
      rw [List.length_append, List.length_singleton]
      calc (acc * 10 ^ (natCharsAux f ((m + 1) / 10)).length + (m + 1) / 10) * 10 +
            (m + 1) % 10
          = acc * (10 ^ (natCharsAux f ((m + 1) / 10)).length * 10) +
              ((m + 1) / 10 * 10 + (m + 1) % 10) := by ring
        _ = acc * (10 ^ (natCharsAux f ((m + 1) / 10)).length * 10) + (m + 1) := by
            congr 1
            omega
        _ = acc * 10 ^ ((natCharsAux f ((m + 1) / 10)).length + 1) + (m + 1) := by
            rw [pow_succ]

/-- The digit loop evaluates a rendered natural number and stops at
the first following non-digit. -/
theorem digitsVal_natChars (n : Nat) (rest : List Char) (h : headNotDigit rest) :
    digitsVal (natChars n ++ rest) 0 = n := by
  by_cases hn : n = 0
  · subst hn
    obtain ⟨p1, p2, _⟩ := digitChar_props 0 (by norm_num)
    simp only [natChars, if_pos rfl, List.singleton_append, digitsVal, if_pos p1, p2]
    simpa using digitsVal_stop rest 0 h
  · rw [natChars, if_neg hn]
    have hdig : ∀ c ∈ natCharsAux n n, c.isDigit = true := by
      intro c hc
      obtain ⟨d, hd, rfl⟩ := mem_natCharsAux n n c hc
      exact (digitChar_props d hd).1
    rw [digitsVal_append _ _ _ hdig, digitsVal_stop rest _ h,
      digitsVal_natCharsAux n n le_rfl 0]
    simp

/-- A rendered natural number is never empty. -/
theorem natChars_ne_nil (n : Nat) : natChars n ≠ [] := by
  unfold natChars
  by_cases hn : n = 0
  · rw [if_pos hn]
    simp
  · rw [if_neg hn]
    obtain ⟨m, rfl⟩ := Nat.exists_eq_succ_of_ne_zero hn
    rw [natCharsAux]
    simp

/-- atoi reads back a rendered integer, ignoring what follows the
digits if it does not start with another digit. -/
theorem atoi_intChars (n : Int) (rest : List Char) (h : headNotDigit rest) :
    atoi (intChars n ++ rest) = n := by
  obtain ⟨c, t, hct⟩ := List.exists_cons_of_ne_nil (natChars_ne_nil n.natAbs)
  obtain ⟨d, hd, hcd⟩ := mem_natChars n.natAbs c (by rw [hct] ; simp)
  obtain ⟨q1, q2, q3, q4, q5, q6, q7, q8, q9⟩ := digitChar_props d hd
  by_cases hn : n < 0
  · rw [intChars, if_pos hn]
    unfold atoi
    have hminus : ¬ (('-').isWhitespace = true) := by decide
    rw [List.cons_append, List.dropWhile_cons, if_neg hminus]
    have hh : ('-' :: (natChars n.natAbs ++ rest)).head? = some '-' := rfl
    rw [if_pos hh]
    simp only [List.drop_succ_cons, List.drop_zero]
    rw [digitsVal_natChars n.natAbs rest h]
    omega
  · rw [intChars, if_neg hn]
    unfold atoi
    have hdw : ((natChars n.natAbs ++ rest).dropWhile fun ch => ch.isWhitespace) =
        natChars n.natAbs ++ rest := by
      rw [hct, List.cons_append, List.dropWhile_cons]
      rw [hcd, q5]
      simp
    rw [hdw]
    have hhd : (natChars n.natAbs ++ rest).head? = some c := by
      rw [hct]
      rfl
    rw [if_neg (by rw [hhd] ; simp [hcd, q8]), if_neg (by rw [hhd] ; simp [hcd, q9])]
    rw [digitsVal_natChars n.natAbs rest h]
    omega

/-- atoi of a rendered integer alone. -/
theorem atoi_intChars_nil (n : Int) : atoi (intChars n) = n := by
  rw [← List.append_nil (intChars n)]
  exact atoi_intChars n [] trivial

/-- A rendered float of an integral value is the rendered integer
followed by ".00". -/
theorem floatChars_intCast (k : Int) :
    floatChars (k : Rat) = intChars k ++ ['.', digitChar 0, digitChar 0] := by
  have ha : (if (k : Rat) < 0 then -(k : Rat) else (k : Rat)) = ((k.natAbs : Nat) : Rat) := by
    by_cases hk : k < 0
    · rw [if_pos (by exact_mod_cast hk)]
      rw [Int.cast_natAbs]
      exact_mod_cast (abs_of_neg hk).symm
    · rw [if_neg (by exact_mod_cast hk)]
      rw [Int.cast_natAbs]
      exact_mod_cast (abs_of_nonneg (by omega : (0 : Int) ≤ k)).symm
  have harith : qMul (qAdd ((k.natAbs : Nat) : Rat) (mkRat 1 200)) 100 =
      ((100 * k.natAbs : Nat) : Rat) + mkRat 1 2 := by
    rw [qAdd_eq, qMul_eq, Rat.mkRat_eq_div, Rat.mkRat_eq_div]
    push_cast
    ring
  have hfloor : (qMul (qAdd ((k.natAbs : Nat) : Rat) (mkRat 1 200)) 100).floor =
      ((100 * k.natAbs : Nat) : Int) := by
    rw [harith, ratFloor_eq]
    have hcast : ((100 * k.natAbs : Nat) : Rat) = (((100 * k.natAbs : Nat) : Int) : Rat) :=
      (Int.cast_natCast _).symm
    have h12 : ((⌊(mkRat 1 2 : Rat)⌋ : Int)) = 0 := by
      rw [Rat.mkRat_eq_div, Int.floor_eq_iff]
      constructor
      · norm_num
      · norm_num
    rw [hcast, add_comm, Int.floor_add_int, h12, zero_add]
  unfold floatChars
  simp only [ha, hfloor]
  have htn : (((100 * k.natAbs : Nat) : Int)).toNat = 100 * k.natAbs := Int.toNat_natCast _
  rw [htn]
  have h100 : 100 * k.natAbs / 100 = k.natAbs := by omega
  have h10 : 100 * k.natAbs / 10 % 10 = 0 := by omega
  have h1 : 100 * k.natAbs % 10 = 0 := by omega
  rw [h100, h10, h1]
  unfold intChars
  by_cases hk : k < 0
  · rw [if_pos (by exact_mod_cast hk : (k : Rat) < 0), if_pos hk]
    simp
  · rw [if_neg (by exact_mod_cast hk : ¬ (k : Rat) < 0), if_neg hk]
    simp

/-- atoi truncates a rendered integral float back to its integer. -/
theorem atoi_floatChars_int (k : Int) : atoi (floatChars (k : Rat)) = k := by
  rw [floatChars_intCast]
  exact atoi_intChars k ['.', digitChar 0, digitChar 0] (show ('.').isDigit = false by decide)


/-- takeWhile passes over a block of satisfying characters. -/
theorem takeWhile_append_all (p : Char → Bool) (l r : List Char)
    (h : ∀ c ∈ l, p c = true) :
    (l ++ r).takeWhile p = l ++ r.takeWhile p := by
  induction l with
  | nil => rfl
  | cons c t ih =>
    simp only [List.cons_append, List.takeWhile_cons, h c (by simp)]
    rw [ih (fun x hx => h x (by simp [hx]))]
    rfl

/-- dropWhile drops a block of satisfying characters. -/
theorem dropWhile_append_all (p : Char → Bool) (l r : List Char)
    (h : ∀ c ∈ l, p c = true) :
    (l ++ r).dropWhile p = r.dropWhile p := by
  induction l with
  | nil => rfl
  | cons c t ih =>
    simp only [List.cons_append, List.dropWhile_cons, h c (by simp)]
    rw [ih (fun x hx => h x (by simp [hx]))]
    rfl

/-- One strtok step on a nonempty token followed by a delimiter:
returns the token and the remainder after the delimiter. -/
theorem strtok1_token (p : Char → Bool) (tok : List Char) (d : Char) (rest : List Char)
    (ht : tok ≠ []) (htok : ∀ ch ∈ tok, p ch = false) (hd : p d = true) :
    strtok1 p (tok ++ d :: rest) = some (tok, rest) := by
  obtain ⟨t0, tt, rfl⟩ := List.exists_cons_of_ne_nil ht
  have h0 : p t0 = false := htok t0 (by simp)
  have hnp : ∀ c ∈ t0 :: tt, (fun ch => !p ch) c = true := by
    intro c hc
    simp [htok c hc]
  have hdw : ((t0 :: tt) ++ d :: rest).dropWhile p = (t0 :: tt) ++ d :: rest := by
    rw [List.cons_append, List.dropWhile_cons]
    simp [h0]
  have htw : ((t0 :: tt) ++ d :: rest).takeWhile (fun ch => !p ch) = t0 :: tt := by
    rw [takeWhile_append_all _ _ _ hnp, List.takeWhile_cons]
    simp [hd]
  have hdw2 : ((t0 :: tt) ++ d :: rest).dropWhile (fun ch => !p ch) = d :: rest := by
    rw [dropWhile_append_all _ _ _ hnp, List.dropWhile_cons]
    simp [hd]
  simp only [strtok1]
  rw [hdw, htw, hdw2]
  rfl

/-- One strtok step on a trailing nonempty token: returns the token
and an empty remainder. -/
theorem strtok1_last (p : Char → Bool) (tok : List Char)
    (ht : tok ≠ []) (htok : ∀ ch ∈ tok, p ch = false) :
    strtok1 p tok = some (tok, []) := by
  obtain ⟨t0, tt, rfl⟩ := List.exists_cons_of_ne_nil ht
  have h0 : p t0 = false := htok t0 (by simp)
  have hnp : ∀ c ∈ t0 :: tt, (fun ch => !p ch) c = true := by
    intro c hc
    simp [htok c hc]
  have hdw : (t0 :: tt).dropWhile p = t0 :: tt := by
    rw [List.dropWhile_cons]
    simp [h0]
  have htw : (t0 :: tt).takeWhile (fun ch => !p ch) = t0 :: tt := by
    rw [show (t0 :: tt) = (t0 :: tt) ++ [] from (List.append_nil _).symm,
      takeWhile_append_all _ _ _ hnp]
    rfl
  have hdw2 : (t0 :: tt).dropWhile (fun ch => !p ch) = [] := by
    rw [show (t0 :: tt) = (t0 :: tt) ++ [] from (List.append_nil _).symm,
      dropWhile_append_all _ _ _ hnp]
    rfl
  simp only [strtok1]
  rw [hdw, htw, hdw2]
  rfl

/-- parseSavedVar on a well-formed `key = value` line extracts the
key and the atoi of the value and runs the assignment chain. -/
theorem parseSavedVar_kv (key val : List Char) (c : Cfg)
    (hk : key ≠ []) (hkd : ∀ ch ∈ key, delimEq ch = false)
    (hv : ∀ ch ∈ val, delimSp ch = false) (hvne : val ≠ []) :
    parseSavedVar c (key ++ ' ' :: '=' :: ' ' :: val) = applyKV key (atoi val) c := by
  have h1 : strtok1 delimEq (key ++ ' ' :: '=' :: ' ' :: val) = some (key, '=' :: ' ' :: val) :=
    strtok1_token delimEq key ' ' ('=' :: ' ' :: val) hk hkd (by decide)
  have h2 : strtok1 delimSp ('=' :: ' ' :: val) = some (['='], val) := by
    have h := strtok1_token delimSp ['='] ' ' val (by decide)
      (by intro ch hc ; simp at hc ; subst hc ; decide) (by decide)
    simpa using h
  have h3 : strtok1 delimSp val = some (val, []) := strtok1_last delimSp val hvne hv
  simp only [parseSavedVar, h1, h2, h3]

/-- parseSavedVar skips an empty line. -/
theorem parseSavedVar_nil (c : Cfg) : parseSavedVar c [] = c := rfl

/-- The config reading loop consumes one CR LF terminated line by
parsing the accumulated buffer plus that line. -/
theorem readChars_line (line rest buf : List Char) (c : Cfg)
    (h : ∀ ch ∈ line, ch ≠ '\n' ∧ ch ≠ '\r') :
    readChars (line ++ '\r' :: '\n' :: rest) buf c =
      readChars rest [] (parseSavedVar c (buf ++ line)) := by
  induction line generalizing buf with
  | nil =>
    rw [List.nil_append, List.append_nil]
    rw [readChars, if_pos (Or.inr rfl)]
    rw [readChars, if_pos (Or.inl rfl)]
    rw [parseSavedVar_nil]
  | cons ch line ih =>
    have hch := h ch (by simp)
    rw [List.cons_append, readChars, if_neg (by simp [hch.1, hch.2])]
    rw [ih _ (fun x hx => h x (by simp [hx]))]
    simp only [List.append_assoc, List.singleton_append]

/-- kvLine content reassociated for line-by-line consumption. -/
theorem kvLine_append (key val R : List Char) :
    kvLine key val ++ R = (key ++ ' ' :: '=' :: ' ' :: val) ++ '\r' :: '\n' :: R := by
  simp [kvLine, List.append_assoc]

/-- The reading loop consumes one saved `key = value` line. -/
theorem readChars_kvLine (key val R : List Char) (c : Cfg)
    (h1 : key ≠ []) (h2 : ∀ ch ∈ key, delimEq ch = false ∧ ch ≠ '\n' ∧ ch ≠ '\r')
    (h3 : ∀ ch ∈ val, delimSp ch = false ∧ ch ≠ '\n' ∧ ch ≠ '\r') (h4 : val ≠ []) :
    readChars (kvLine key val ++ R) [] c = readChars R [] (applyKV key (atoi val) c) := by
  have hline : ∀ ch ∈ key ++ ' ' :: '=' :: ' ' :: val, ch ≠ '\n' ∧ ch ≠ '\r' := by
    intro ch hch
    rw [List.mem_append] at hch
    rcases hch with hch | hch
    · exact ⟨(h2 ch hch).2.1, (h2 ch hch).2.2⟩
    · simp only [List.mem_cons] at hch
      rcases hch with rfl | rfl | rfl | hch
      · exact ⟨by decide, by decide⟩
      · exact ⟨by decide, by decide⟩
      · exact ⟨by decide, by decide⟩
      · exact ⟨(h3 ch hch).2.1, (h3 ch hch).2.2⟩
  rw [kvLine_append]
  rw [readChars_line (key ++ ' ' :: '=' :: ' ' :: val) R [] c hline]
  rw [List.nil_append]
  rw [parseSavedVar_kv key val c h1 (fun ch hc => (h2 ch hc).1) (fun ch hc => (h3 ch hc).1) h4]

/-- Characters of a rendered integer are safe value characters. -/
theorem intChars_plain (n : Int) :
    ∀ ch ∈ intChars n, delimSp ch = false ∧ ch ≠ '\n' ∧ ch ≠ '\r' := by
  intro ch hch
  unfold intChars at hch
  by_cases hn : n < 0
  · rw [if_pos hn, List.mem_cons] at hch
    rcases hch with rfl | hch
    · exact ⟨by decide, by decide, by decide⟩
    · obtain ⟨d, hd, rfl⟩ := mem_natChars n.natAbs ch hch
      obtain ⟨_, _, _, p4, _, p6, p7, _, _⟩ := digitChar_props d hd
      exact ⟨p4, p6, p7⟩
  · rw [if_neg hn] at hch
    obtain ⟨d, hd, rfl⟩ := mem_natChars n.natAbs ch hch
    obtain ⟨_, _, _, p4, _, p6, p7, _, _⟩ := digitChar_props d hd
    exact ⟨p4, p6, p7⟩

/-- Characters of a rendered integral float are safe value
characters. -/
theorem floatChars_int_plain (k : Int) :
    ∀ ch ∈ floatChars (k : Rat), delimSp ch = false ∧ ch ≠ '\n' ∧ ch ≠ '\r' := by
  intro ch hch
  rw [floatChars_intCast, List.mem_append] at hch
  rcases hch with hch | hch
  · exact intChars_plain k ch hch
  · simp only [List.mem_cons] at hch
    rcases hch with rfl | rfl | rfl | hch
    · exact ⟨by decide, by decide, by decide⟩
    · exact ⟨by decide, by decide, by decide⟩
    · exact ⟨by decide, by decide, by decide⟩
    · simp at hch

/-- Characters of a rendered bool are safe value characters. -/
theorem boolChars_plain (b : Bool) :
    ∀ ch ∈ boolChars b, delimSp ch = false ∧ ch ≠ '\n' ∧ ch ≠ '\r' := by
  cases b <;> intro ch hch <;> simp [boolChars] at hch <;> subst hch <;>
    exact ⟨by decide, by decide, by decide⟩

/-- A rendered integer is never empty. -/
theorem intChars_ne_nil (n : Int) : intChars n ≠ [] := by
  unfold intChars
  by_cases hn : n < 0
  · rw [if_pos hn]
    simp
  · rw [if_neg hn]
    exact natChars_ne_nil _

/-- A rendered integral float is never empty. -/
theorem floatChars_int_ne_nil (k : Int) : floatChars (k : Rat) ≠ [] := by
  rw [floatChars_intCast]
  simp [intChars_ne_nil]

/-- applyKV on the echo key. -/
theorem applyKV_echo (v : Int) (c : Cfg) : applyKV kEcho v c = { c with echo := v != 0 } := by
  simp +decide [applyKV]

/-- applyKV on the log_interval key. -/
theorem applyKV_log (v : Int) (c : Cfg) :
    applyKV kLog v c = { c with log_interval := v } := by
  simp +decide [applyKV]

/-- applyKV on the sync_interval key. -/
theorem applyKV_sync (v : Int) (c : Cfg) :
    applyKV kSync v c = { c with sync_interval := v } := by
  simp +decide [applyKV]

/-- applyKV on the cal_factor key (the value arrives as an int). -/
theorem applyKV_cal (v : Int) (c : Cfg) :
    applyKV kCal v c = { c with cal_factor := (v : Rat) } := by
  simp +decide [applyKV]

/-- applyKV on the zero_offset key (reached through the else of the
trip_value test). -/
theorem applyKV_zero (v : Int) (c : Cfg) :
    applyKV kZero v c = { c with zero_offset := (v : Rat) } := by
  simp +decide [applyKV]

/-- applyKV on the trip_value key. -/
theorem applyKV_trip (v : Int) (c : Cfg) :
    applyKV kTrip v c = { c with trip_value := v } := by
  simp +decide [applyKV]

/-- Echo round trip through print and atoi. -/
theorem applyKV_echo_val (e : Bool) (c : Cfg) :
    applyKV kEcho (atoi (boolChars e)) c = { c with echo := e } := by
  rw [applyKV_echo]
  cases e
  · rw [show atoi (boolChars false) = 0 from by decide]
    rfl
  · rw [show atoi (boolChars true) = 1 from by decide]
    rfl

/-- Integer setting round trip through print and atoi. -/
theorem applyKV_log_val (n : Int) (c : Cfg) :
    applyKV kLog (atoi (intChars n)) c = { c with log_interval := n } := by
  rw [applyKV_log, atoi_intChars_nil]

theorem applyKV_sync_val (n : Int) (c : Cfg) :
    applyKV kSync (atoi (intChars n)) c = { c with sync_interval := n } := by
  rw [applyKV_sync, atoi_intChars_nil]

theorem applyKV_trip_val (n : Int) (c : Cfg) :
    applyKV kTrip (atoi (intChars n)) c = { c with trip_value := n } := by
  rw [applyKV_trip, atoi_intChars_nil]

/-- Integral float setting round trip through print and atoi. -/
theorem applyKV_cal_val (k : Int) (c : Cfg) :
    applyKV kCal (atoi (floatChars (k : Rat))) c = { c with cal_factor := (k : Rat) } := by
  rw [applyKV_cal, atoi_floatChars_int]

theorem applyKV_zero_val (k : Int) (c : Cfg) :
    applyKV kZero (atoi (floatChars (k : Rat))) c = { c with zero_offset := (k : Rat) } := by
  rw [applyKV_zero, atoi_floatChars_int]

/-- C1 amended: for every settings record whose cal_factor and
zero_offset are integer-valued, saving with saveSystemSettings and
reloading through readSystemSettings/parseSavedVar restores all six
fields exactly, whatever the globals held before the load.  (The
counterexample above shows this integrality restriction is necessary:
fractional calibration factors are truncated by atoi.) -/
theorem c1_roundtrip_amended (e : Bool) (L S T k m : Int) (c0 : Cfg) :
    (readSystemSettings (saveSystemSettings ⟨e, L, S, (k : Rat), (m : Rat), T⟩) c0).1 =
      ⟨e, L, S, (k : Rat), (m : Rat), T⟩ := by
  show readChars (saveSystemSettings ⟨e, L, S, (k : Rat), (m : Rat), T⟩) [] c0 = _
  rw [saveSystemSettings]
  simp only [List.append_assoc]
  rw [readChars_kvLine kEcho (boolChars e) _ c0 (by decide) (by decide)
    (boolChars_plain e) (by cases e <;> decide)]
  rw [readChars_kvLine kLog (intChars L) _ _ (by decide) (by decide)
    (intChars_plain L) (intChars_ne_nil L)]
  rw [readChars_kvLine kSync (intChars S) _ _ (by decide) (by decide)
    (intChars_plain S) (intChars_ne_nil S)]
  rw [readChars_kvLine kCal (floatChars (k : Rat)) _ _ (by decide) (by decide)
    (floatChars_int_plain k) (floatChars_int_ne_nil k)]
  rw [readChars_kvLine kZero (floatChars (m : Rat)) _ _ (by decide) (by decide)
    (floatChars_int_plain m) (floatChars_int_ne_nil m)]
  rw [show kvLine kTrip (intChars T) = kvLine kTrip (intChars T) ++ ([] : List Char) from
    (List.append_nil _).symm]
  rw [readChars_kvLine kTrip (intChars T) [] _ (by decide) (by decide)
    (intChars_plain T) (intChars_ne_nil T)]
  rw [applyKV_echo_val, applyKV_log_val, applyKV_sync_val, applyKV_cal_val,
    applyKV_zero_val, applyKV_trip_val]
  rfl

end EndlineTension
